import Mathlib

/-!
Verification of the draft auto-save / currency auto-population scripts.

Shallow embedding of the two browser scripts of this repository:

* `src/unnamed/part_000` — currency-symbol auto-population
  (`CURRENCY_SYMBOLS`, `updateCurrencySymbol`, the page-load trigger);
* `src/staticfiles/admin/js/custom-admin.js` — the admin dashboard glue,
  of which the parts with data content are the `DOMContentLoaded`
  initialization list (lines 8-18) and `initAutoSave` (lines 302-340):
  draft restore, the change-event snapshot writer, and the submit-event
  draft clearing, together with the `JSON.stringify` / `JSON.parse`
  round trip they rely on.

Strings are modelled as Lean strings (sequences of Unicode scalar values);
JS strings are UTF-16 code-unit sequences, so lone surrogates are outside
the model.  DOM state is reduced to the field values the scripts read and
write; transient visual feedback (background colours) is kept as a flag.
-/

/-! ### JS primitives used by both scripts -/

/-- The character set removed by `String.prototype.trim`: the ECMAScript
`WhiteSpace` and `LineTerminator` productions (tab, LF, VT, FF, CR, space,
NBSP, the Unicode space separators, LS, PS, and ZWNBSP). -/
def isJsTrimmable (c : Char) : Bool :=
  c.toNat == 0x09 || c.toNat == 0x0a || c.toNat == 0x0b || c.toNat == 0x0c ||
  c.toNat == 0x0d || c.toNat == 0x20 || c.toNat == 0xa0 || c.toNat == 0x1680 ||
  (0x2000 ≤ c.toNat && c.toNat ≤ 0x200a) || c.toNat == 0x2028 ||
  c.toNat == 0x2029 || c.toNat == 0x202f || c.toNat == 0x205f ||
  c.toNat == 0x3000 || c.toNat == 0xfeff

/-- `String.prototype.trim`: strip trimmable characters from both ends. -/
def jsTrim (s : String) : String :=
  String.mk (((s.data.dropWhile (fun c => isJsTrimmable c)).reverse.dropWhile
    (fun c => isJsTrimmable c)).reverse)

/-- JS property assignment `m[k] = v` on a plain object viewed as an ordered
association list: an existing key keeps its position and gets the new value,
a fresh key is appended. -/
def objInsert : List (String × α) → String → α → List (String × α)
  | [], k, v => [(k, v)]
  | (k0, v0) :: rest, k, v =>
    if k0 = k then (k, v) :: rest else (k0, v0) :: objInsert rest k v

/-! ### The currency auto-population script (`src/unnamed/part_000`)

The script reads `#id_currency` (`currency`) and `#id_currency_symbol`
(`symbol`); the transient green highlight set before the `setTimeout`
reset is modelled by the `highlight` flag. -/

/-- The `CURRENCY_SYMBOLS` object literal (part_000 lines 10-28), as an
ordered association list of own properties. -/
def CURRENCY_SYMBOLS : List (String × String) :=
  [("USD", "$"), ("CAD", "C$"), ("GBP", "£"), ("EUR", "€"), ("AUD", "A$"),
   ("NGN", "₦"), ("ZAR", "R"), ("KES", "KSh"), ("GHS", "GH₵"), ("UGX", "USh"),
   ("TZS", "TSh"), ("EGP", "E£"), ("MAD", "DH"), ("JPY", "¥"), ("CNY", "¥"),
   ("INR", "₹"), ("CHF", "CHF")]

/-- The own entries of the literal: `lookupCurrencySymbol c` is the
declared symbol for `c`, if any. -/
def lookupCurrencySymbol (c : String) : Option String :=
  (CURRENCY_SYMBOLS.find? (fun p => p.1 = c)).map Prod.snd

/-- The member names a plain object literal inherits from
`Object.prototype` (ES2023 §20.1.3 plus the legacy accessors of annex B):
JS bracket access finds these on the prototype chain when no own entry
shadows them, and every one of them is truthy (a function — or, for
`__proto__`, the prototype object itself). -/
def OBJECT_PROTOTYPE_KEYS : List String :=
  ["constructor", "hasOwnProperty", "isPrototypeOf", "propertyIsEnumerable",
   "toLocaleString", "toString", "valueOf", "__defineGetter__",
   "__defineSetter__", "__lookupGetter__", "__lookupSetter__", "__proto__"]

/-- The value JS bracket access `CURRENCY_SYMBOLS[c]` can produce: an own
string entry of the literal, a member inherited from `Object.prototype`,
or `undefined`. -/
inductive JsPropValue where
  | str (s : String)
  | inherited (name : String)
  | undef
deriving Repr, DecidableEq

/-- `CURRENCY_SYMBOLS[c]`: JS bracket access, walking the prototype
chain — an own entry if declared, otherwise an `Object.prototype` member
of that name, otherwise `undefined`. -/
def bracketCurrencySymbol (c : String) : JsPropValue :=
  match lookupCurrencySymbol c with
  | some s => JsPropValue.str s
  | none =>
    if c ∈ OBJECT_PROTOTYPE_KEYS then JsPropValue.inherited c
    else JsPropValue.undef

/-- JS truthiness of the accessed property value: an own entry is truthy
iff non-empty, an inherited member (function / prototype object) is
truthy, `undefined` is falsy. -/
def JsPropValue.truthy : JsPropValue → Bool
  | JsPropValue.str s => !(s == "")
  | JsPropValue.inherited _ => true
  | JsPropValue.undef => false

/-- Assigning the accessed value to `input.value` coerces it to a string:
an own entry is written as-is; an inherited native function coerces to its
source text, whose exact spelling is engine-defined and modelled here in
the shape every major engine uses (`__proto__` is the prototype object and
coerces to its object display); `undefined` would coerce to the string
"undefined", but the truthiness guard keeps it from the assignment. -/
def coerceAssignedSymbol : JsPropValue → String
  | JsPropValue.str s => s
  | JsPropValue.inherited name =>
    if name = "__proto__" then "[object Object]"
    else "function " ++ name ++ "() \x7b [native code] \x7d"
  | JsPropValue.undef => "undefined"

/-- The two fields the script manipulates. -/
structure CurrencyState where
  currency : String
  symbol : String
  highlight : Bool
deriving Repr, DecidableEq

/-- `updateCurrencySymbol` (part_000 lines 41-58).  Guard
`selectedCurrency && CURRENCY_SYMBOLS[selectedCurrency]` is the emptiness
test on the currency value plus truthiness of the bracket-accessed
property (which walks the prototype chain); then the symbol field is
overwritten only when its trimmed value is empty, `"$"`, or `"₦"`. -/
def updateCurrencySymbol (st : CurrencyState) : CurrencyState :=
  if st.currency = "" then st
  else
    let propVal := bracketCurrencySymbol st.currency
    if propVal.truthy then
      let currentSymbol := jsTrim st.symbol
      if currentSymbol = "" ∨ currentSymbol = "$" ∨ currentSymbol = "₦" then
        { st with symbol := coerceAssignedSymbol propVal, highlight := true }
      else st
    else st

/-- The page-load trigger (part_000 lines 63-69): call
`updateCurrencySymbol` only when a currency is set and the trimmed symbol
is empty or exactly `"$"`. -/
def currencyPageLoad (st : CurrencyState) : CurrencyState :=
  if st.currency = "" then st
  else
    let currentSymbol := jsTrim st.symbol
    if currentSymbol = "" ∨ currentSymbol = "$" then updateCurrencySymbol st
    else st

/-! ### The local storage model

`localStorage` with a finite quota: `avail = false` models quota exhaustion
or an unavailable store, where `setItem` throws (`getItem` and `removeItem`
never throw). -/

inductive StorageError where
  | quotaExceeded
deriving Repr, DecidableEq

structure Storage where
  avail : Bool
  items : List (String × String)
deriving Repr, DecidableEq

def Storage.getItem (st : Storage) (k : String) : Option String :=
  (st.items.find? (fun p => p.1 = k)).map Prod.snd

def Storage.setItem (st : Storage) (k v : String) : Except StorageError Storage :=
  if st.avail then Except.ok { st with items := objInsert st.items k v }
  else Except.error StorageError.quotaExceeded

def Storage.removeItem (st : Storage) (k : String) : Storage :=
  { st with items := st.items.filter (fun p => ¬ p.1 = k) }

/-! ### Forms and fields (`custom-admin.js`, `initAutoSave`)

A `Field` is one element of `form.querySelectorAll('input, textarea, select')`:
its `name` attribute (the empty string models a missing/empty name, which is
falsy in the `if (inp.name)` test), its current `value`, and the restored
highlight (`input.style.background = '#fef3c7'`). -/

structure FormField where
  name : String
  value : String
  restoredHighlight : Bool
deriving Repr, DecidableEq

/-- A form: `getAttribute('id')` (`none` when the attribute is absent) and
its input-capable fields in document order. -/
structure Form where
  id : Option String
  fields : List FormField
deriving Repr, DecidableEq

/-- `form.getAttribute('id') || 'admin-form'` (custom-admin.js line 307):
the fallback also fires on an empty id attribute, which is falsy. -/
def formKeyId (form : Form) : String :=
  match form.id with
  | none => "admin-form"
  | some i => if i = "" then "admin-form" else i

/-- The storage key `autosave-${formId}` (lines 310, 331, 337). -/
def autosaveKey (formId : String) : String := "autosave-" ++ formId

/-! ### `JSON.stringify` of a draft record

The snapshot writer (custom-admin.js line 331) serializes a plain object
whose values are field-value strings.  `JSON.stringify` quotes each key and
value, escaping the quote, the backslash, and control characters (short
escapes for BS, FF, LF, CR, TAB, and lowercase `\u00xx` for the others),
and emits `\x7bk:v,...\x7d` with no whitespace. -/

def hexDigitChar : Nat → Char
  | 0 => '0' | 1 => '1' | 2 => '2' | 3 => '3' | 4 => '4'
  | 5 => '5' | 6 => '6' | 7 => '7' | 8 => '8' | 9 => '9'
  | 10 => 'a' | 11 => 'b' | 12 => 'c' | 13 => 'd' | 14 => 'e'
  | 15 => 'f' | _ => '0'

def escapeJsonChar (c : Char) : List Char :=
  if c = '"' then ['\\', '"']
  else if c = '\\' then ['\\', '\\']
  else if c = '\x08' then ['\\', 'b']
  else if c = '\x0c' then ['\\', 'f']
  else if c = '\n' then ['\\', 'n']
  else if c = '\r' then ['\\', 'r']
  else if c = '\t' then ['\\', 't']
  else if c.toNat < 0x20 then
    ['\\', 'u', '0', '0', hexDigitChar (c.toNat / 16), hexDigitChar (c.toNat % 16)]
  else [c]

def quoteJsonString (s : String) : List Char :=
  '"' :: (s.data.flatMap escapeJsonChar ++ ['"'])

def encodeMembers : List (String × String) → List Char
  | [] => []
  | [(k, v)] => quoteJsonString k ++ ':' :: quoteJsonString v
  | (k, v) :: rest =>
    quoteJsonString k ++ ':' :: (quoteJsonString v ++ ',' :: encodeMembers rest)

/-- `JSON.stringify` applied to a draft record (an ordered string-to-string
object). -/
def encodeRecord (r : List (String × String)) : String :=
  String.mk ('\x7b' :: (encodeMembers r ++ ['\x7d']))

/-! ### `JSON.parse`

A parsed JSON value.  Numbers keep their source lexeme: the numeric value
is never consulted by the scripts (a number reaches a field only through
string coercion, where JS would print the canonical decimal form — none of
the stored drafts written by this program contain numbers). -/

inductive Json where
  | null
  | bool (b : Bool)
  | num (lexeme : String)
  | str (s : String)
  | arr (elems : List Json)
  | obj (members : List (String × Json))
deriving Repr, Inhabited

def jsonHexVal (c : Char) : Option Nat :=
  if 48 ≤ c.toNat ∧ c.toNat ≤ 57 then some (c.toNat - 48)
  else if 97 ≤ c.toNat ∧ c.toNat ≤ 102 then some (c.toNat - 87)
  else if 65 ≤ c.toNat ∧ c.toNat ≤ 70 then some (c.toNat - 55)
  else none

def isJsonWs (c : Char) : Bool := c == ' ' || c == '\t' || c == '\n' || c == '\r'

def jsonSkipWs (cs : List Char) : List Char := cs.dropWhile isJsonWs

/-- Parse the rest of a JSON string literal (after the opening quote),
accumulating decoded characters.  Raw control characters are rejected, as
is any escape outside the JSON repertoire.  `\uXXXX` denoting a surrogate
is outside the Unicode-scalar string model and is rejected. -/
def parseJsonStringRest (acc : List Char) : List Char → Option (String × List Char)
  | [] => none
  | c :: rest =>
    if c = '"' then some (String.mk acc.reverse, rest)
    else if c = '\\' then
      match rest with
      | 'u' :: h1 :: h2 :: h3 :: h4 :: rest2 =>
        match jsonHexVal h1, jsonHexVal h2, jsonHexVal h3, jsonHexVal h4 with
        | some a, some b, some c2, some d =>
          let n := ((a * 16 + b) * 16 + c2) * 16 + d
          if n < 0xd800 ∨ (0xdfff < n ∧ n < 0x110000) then
            parseJsonStringRest (Char.ofNat n :: acc) rest2
          else none
        | _, _, _, _ => none
      | e :: rest2 =>
        if e = '"' then parseJsonStringRest ('"' :: acc) rest2
        else if e = '\\' then parseJsonStringRest ('\\' :: acc) rest2
        else if e = '/' then parseJsonStringRest ('/' :: acc) rest2
        else if e = 'b' then parseJsonStringRest ('\x08' :: acc) rest2
        else if e = 'f' then parseJsonStringRest ('\x0c' :: acc) rest2
        else if e = 'n' then parseJsonStringRest ('\n' :: acc) rest2
        else if e = 'r' then parseJsonStringRest ('\r' :: acc) rest2
        else if e = 't' then parseJsonStringRest ('\t' :: acc) rest2
        else none
      | [] => none
    else if c.toNat < 0x20 then none
    else parseJsonStringRest (c :: acc) rest

def isDigitChar (c : Char) : Bool := 48 ≤ c.toNat && c.toNat ≤ 57

def spanDigits (cs : List Char) : List Char × List Char :=
  (cs.takeWhile isDigitChar, cs.dropWhile isDigitChar)

def parseIntPart (cs : List Char) : Option (List Char × List Char) :=
  let (sign, cs1) := match cs with
    | '-' :: r => ((['-'] : List Char), r)
    | _ => ([], cs)
  let (ds, cs2) := spanDigits cs1
  match ds with
  | [] => none
  | ['0'] => some (sign ++ ['0'], cs2)
  | '0' :: _ :: _ => none
  | _ => some (sign ++ ds, cs2)

def parseFracPart : List Char → Option (List Char × List Char)
  | '.' :: r =>
    let (fds, r2) := spanDigits r
    if fds = [] then none else some ('.' :: fds, r2)
  | cs => some ([], cs)

def parseExpPart : List Char → Option (List Char × List Char)
  | [] => some ([], [])
  | e :: r =>
    if e = 'e' ∨ e = 'E' then
      let (sgn, r1) : List Char × List Char := match r with
        | '+' :: r2 => (['+'], r2)
        | '-' :: r2 => (['-'], r2)
        | _ => ([], r)
      let (eds, r2) := spanDigits r1
      if eds = [] then none else some (e :: (sgn ++ eds), r2)
    else some ([], e :: r)

/-- The JSON number grammar, returning the accepted lexeme. -/
def parseJsonNumberLex (cs : List Char) : Option (List Char × List Char) :=
  match parseIntPart cs with
  | none => none
  | some (ip, cs1) =>
    match parseFracPart cs1 with
    | none => none
    | some (fp, cs2) =>
      match parseExpPart cs2 with
      | none => none
      | some (ep, cs3) => some (ip ++ (fp ++ ep), cs3)

mutual

/-- The JSON value grammar, structurally recursive on a fuel counter (one
unit per value / per aggregate element, so `length + 1` units cover any
input). -/
def parseJsonValue : Nat → List Char → Option (Json × List Char)
  | 0, _ => none
  | fuel + 1, cs =>
    match jsonSkipWs cs with
    | [] => none
    | c :: rest =>
      if c = '"' then
        match parseJsonStringRest [] rest with
        | none => none
        | some (s, r) => some (Json.str s, r)
      else if c = '\x7b' then
        match jsonSkipWs rest with
        | '\x7d' :: r => some (Json.obj [], r)
        | cs1 =>
          match parseObjMembers fuel [] cs1 with
          | none => none
          | some (ms, r) => some (Json.obj ms, r)
      else if c = '[' then
        match jsonSkipWs rest with
        | ']' :: r => some (Json.arr [], r)
        | cs1 =>
          match parseArrElems fuel cs1 with
          | none => none
          | some (es, r) => some (Json.arr es, r)
      else if c = 'n' then
        match rest with
        | 'u' :: 'l' :: 'l' :: r => some (Json.null, r)
        | _ => none
      else if c = 't' then
        match rest with
        | 'r' :: 'u' :: 'e' :: r => some (Json.bool true, r)
        | _ => none
      else if c = 'f' then
        match rest with
        | 'a' :: 'l' :: 's' :: 'e' :: r => some (Json.bool false, r)
        | _ => none
      else if c = '-' ∨ isDigitChar c then
        match parseJsonNumberLex (c :: rest) with
        | none => none
        | some (lex, r) => some (Json.num (String.mk lex), r)
      else none

/-- One-or-more object members (the empty object is handled by the caller).
Duplicate keys follow JS object semantics via `objInsert`: last value wins,
first position kept. -/
def parseObjMembers : Nat → List (String × Json) → List Char →
    Option (List (String × Json) × List Char)
  | 0, _, _ => none
  | fuel + 1, acc, cs =>
    match cs with
    | '"' :: rest =>
      match parseJsonStringRest [] rest with
      | none => none
      | some (k, r1) =>
        match jsonSkipWs r1 with
        | ':' :: r2 =>
          match parseJsonValue fuel r2 with
          | none => none
          | some (v, r3) =>
            match jsonSkipWs r3 with
            | ',' :: r4 => parseObjMembers fuel (objInsert acc k v) (jsonSkipWs r4)
            | '\x7d' :: r4 => some (objInsert acc k v, r4)
            | _ => none
        | _ => none
    | _ => none

/-- One-or-more array elements (the empty array is handled by the caller). -/
def parseArrElems : Nat → List Char → Option (List Json × List Char)
  | 0, _ => none
  | fuel + 1, cs =>
    match parseJsonValue fuel cs with
    | none => none
    | some (v, r) =>
      match jsonSkipWs r with
      | ',' :: r2 =>
        match parseArrElems fuel (jsonSkipWs r2) with
        | none => none
        | some (vs, r3) => some (v :: vs, r3)
      | ']' :: r2 => some ([v], r2)
      | _ => none

end

/-- `JSON.parse`: whole-input parse, allowing trailing whitespace only. -/
def parseJson (s : String) : Option Json :=
  match parseJsonValue (s.length + 1) s.data with
  | none => none
  | some (j, r) => if jsonSkipWs r = [] then some j else none

/-! ### From a parsed value to the applied draft entries

The restore loop (custom-admin.js lines 312-319) iterates
`Object.keys(data)` and assigns `data[name]` to the matching field.
`Object.keys` of `null` throws a TypeError; of a primitive it is empty; of
a string it is the character indices; of an array the element indices; of
an object its own enumerable keys in insertion order (the JS
integer-like-keys-first reordering is not modelled — the program's own
drafts are keyed by field names).  Assigning a non-string to
`input.value` coerces it to a string (`null` becomes the empty string via
`[LegacyNullToEmptyString]`; an array joins its displays with commas). -/

inductive JsError where
  | syntaxError
  | typeError
deriving Repr, DecidableEq

mutual

def jsDisplay : Json → String
  | Json.null => "null"
  | Json.bool true => "true"
  | Json.bool false => "false"
  | Json.num lex => lex
  | Json.str s => s
  | Json.arr xs => jsDisplayJoin xs
  | Json.obj _ => "[object Object]"

def jsDisplayJoin : List Json → String
  | [] => ""
  | [Json.null] => ""
  | [j] => jsDisplay j
  | Json.null :: rest => "," ++ jsDisplayJoin rest
  | j :: rest => jsDisplay j ++ ("," ++ jsDisplayJoin rest)

end

def coerceFieldValue : Json → String
  | Json.null => ""
  | j => jsDisplay j

/-- The name/value pairs the restore loop walks, per `Object.keys` shape. -/
def recordOfJson : Json → Except JsError (List (String × String))
  | Json.null => Except.error JsError.typeError
  | Json.bool _ => Except.ok []
  | Json.num _ => Except.ok []
  | Json.str s => Except.ok (s.data.enum.map (fun p => (toString p.1, String.mk [p.2])))
  | Json.arr xs => Except.ok (xs.enum.map (fun p => (toString p.1, coerceFieldValue p.2)))
  | Json.obj ms => Except.ok (ms.map (fun p => (p.1, coerceFieldValue p.2)))

/-! ### The draft persistence operations (`initAutoSave`, lines 302-340) -/

/-- One restore assignment: `form.querySelector('[name=...]')` takes the
first field with that name (literal name match; CSS selector escaping of
exotic names is not modelled), and `if (input && !input.value)` writes it
only when its current value is empty, marking it restored. -/
def applyDraftEntry (name val : String) : List FormField → List FormField
  | [] => []
  | f :: rest =>
    if f.name = name then
      if f.value = "" then
        { f with value := val, restoredHighlight := true } :: rest
      else f :: rest
    else f :: applyDraftEntry name val rest

/-- The whole restore loop over the decoded record's entries. -/
def applyDraft (entries : List (String × String)) (fields : List FormField) :
    List FormField :=
  entries.foldl (fun fs p => applyDraftEntry p.1 p.2 fs) fields

/-- The draft-restore step (lines 309-320): read the stored string (a null
or empty read is falsy and skipped), `JSON.parse` it — with no `try` to
catch a parse failure — then apply each entry to the first matching empty
field. -/
def restoreDraft (st : Storage) (form : Form) : Except JsError Form :=
  match st.getItem (autosaveKey (formKeyId form)) with
  | none => Except.ok form
  | some s =>
    if s = "" then Except.ok form
    else
      match parseJson s with
      | none => Except.error JsError.syntaxError
      | some j =>
        match recordOfJson j with
        | Except.error e => Except.error e
        | Except.ok entries =>
          Except.ok { form with fields := applyDraft entries form.fields }

/-- The snapshot `formData` built by the change handler (lines 325-330):
every field with a truthy name contributes its current value, by JS
property assignment. -/
def formDataOf (inputs : List FormField) : List (String × String) :=
  inputs.foldl (fun acc f => if f.name = "" then acc else objInsert acc f.name f.value) []

/-- The change handler (lines 324-332): recompute the snapshot, encode it
and write it under the form's key — with no `try` around `setItem`. -/
def saveDraftOnChange (inputs : List FormField) (formId : String) (st : Storage) :
    Except StorageError Storage :=
  st.setItem (autosaveKey formId) (encodeRecord (formDataOf inputs))

/-- The submit handler (lines 336-338). -/
def clearDraftOnSubmit (st : Storage) (formId : String) : Storage :=
  st.removeItem (autosaveKey formId)

/-- Named fields of a form with their current values, in document order
(the spec's data model assumes names are unique within a form). -/
def namedFieldPairs (inputs : List FormField) : List (String × String) :=
  (inputs.filter (fun f => ¬ f.name = "")).map (fun f => (f.name, f.value))

/-! ### The page-load wiring (`custom-admin.js` lines 8-18)

The `DOMContentLoaded` handler invokes a fixed list of initialization
functions.  `initAutoSave` is defined at lines 302-340 but appears nowhere
in this list, and no other call site exists (the `window.adminDashboard`
export at lines 354-358 carries only `showLoading`, `hideLoading`, and
`animateCounters`). -/

inductive AdminInit where
  | dashboardStats
  | tableEnhancements
  | formEnhancements
  | searchEnhancements
  | animations
  | tooltips
  | autoSave
deriving Repr, DecidableEq

/-- The invocation list of the `DOMContentLoaded` handler (lines 11-16). -/
def domContentLoadedInits : List AdminInit :=
  [AdminInit.dashboardStats, AdminInit.tableEnhancements, AdminInit.formEnhancements,
   AdminInit.searchEnhancements, AdminInit.animations, AdminInit.tooltips]

/-- The record's members with every value embedded as a JSON string. -/
def strMembers (r : List (String × String)) : List (String × Json) :=
  r.map (fun p => (p.1, Json.str p.2))

/-! ### Helper lemmas -/

theorem lookupCurrencySymbol_ne_empty {c s : String}
    (h : lookupCurrencySymbol c = some s) : c ≠ "" := by
  intro hc
  subst hc
  have hnone : lookupCurrencySymbol "" = none := by decide
  rw [hnone] at h
  cases h

theorem lookupCurrencySymbol_val_ne_empty {c s : String}
    (h : lookupCurrencySymbol c = some s) : s ≠ "" := by
  unfold lookupCurrencySymbol at h
  match hf : CURRENCY_SYMBOLS.find? (fun p => p.1 = c) with
  | none => rw [hf] at h; simp at h
  | some p =>
    rw [hf] at h
    have hps : p.2 = s := by simpa using h
    have hmem : p ∈ CURRENCY_SYMBOLS := List.mem_of_find?_eq_some hf
    have hall : ∀ q ∈ CURRENCY_SYMBOLS, q.2 ≠ "" := by decide
    rw [← hps]
    exact hall p hmem

theorem bracketCurrencySymbol_of_lookup {c sym : String}
    (h : lookupCurrencySymbol c = some sym) :
    bracketCurrencySymbol c = JsPropValue.str sym := by
  simp [bracketCurrencySymbol, h]

theorem truthy_str_of_ne {s : String} (h : s ≠ "") :
    (JsPropValue.str s).truthy = true := by
  simp [JsPropValue.truthy, h]

/-- C8: when a currency with a known symbol mapping is selected,
`updateCurrencySymbol` overwrites the symbol field exactly when its trimmed
current value is empty, `"$"`, or `"₦"`; for every other pre-existing value
the state is left untouched. -/
theorem currencySymbol_overwrites_only_defaults (st : CurrencyState) (sym : String)
    (hsym : lookupCurrencySymbol st.currency = some sym) :
    ((jsTrim st.symbol = "" ∨ jsTrim st.symbol = "$" ∨ jsTrim st.symbol = "₦") →
      updateCurrencySymbol st = { st with symbol := sym, highlight := true }) ∧
    (¬ (jsTrim st.symbol = "" ∨ jsTrim st.symbol = "$" ∨ jsTrim st.symbol = "₦") →
      updateCurrencySymbol st = st) := by
  have hc : st.currency ≠ "" := lookupCurrencySymbol_ne_empty hsym
  have hs : sym ≠ "" := lookupCurrencySymbol_val_ne_empty hsym
  have hbr := bracketCurrencySymbol_of_lookup hsym
  constructor
  · intro hdef
    simp only [updateCurrencySymbol, hbr, if_neg hc, truthy_str_of_ne hs, if_true,
      if_pos hdef, coerceAssignedSymbol]
  · intro hdef
    simp only [updateCurrencySymbol, hbr, if_neg hc, truthy_str_of_ne hs, if_true,
      if_neg hdef]

/-- Witness for C8 at a concrete state: `EUR` is mapped, but a pre-existing
symbol `"kr"` is not a default placeholder, so nothing changes. -/
theorem currencySymbol_overwrites_only_defaults_witness :
    lookupCurrencySymbol "EUR" = some "€" ∧
    updateCurrencySymbol ⟨"EUR", "kr", false⟩ = ⟨"EUR", "kr", false⟩ := by
  refine ⟨by decide, ?_⟩
  exact (currencySymbol_overwrites_only_defaults ⟨"EUR", "kr", false⟩ "€"
    (by decide)).2 (by decide)

/-- C9 counterexample: `"toString"` has no entry in the `CURRENCY_SYMBOLS`
mapping, yet bracket access finds the inherited, truthy
`Object.prototype.toString`, so with an empty symbol field
`updateCurrencySymbol` overwrites the field with the function's string
coercion — the field is not left unchanged. -/
theorem currency_prototype_key_counterexample :
    lookupCurrencySymbol "toString" = none ∧
    updateCurrencySymbol ⟨"toString", "", false⟩ =
      ⟨"toString", "function toString() \x7b [native code] \x7d", true⟩ :=
  ⟨by decide, by decide⟩

/-- C9 amended: when the selected currency is empty, or bracket access on
`CURRENCY_SYMBOLS` yields `undefined` (no own entry and no member of that
name inherited from `Object.prototype`), `updateCurrencySymbol` leaves the
state unchanged — even when the symbol field is empty. -/
theorem updateCurrencySymbol_undefined_frame (st : CurrencyState)
    (h : st.currency = "" ∨ bracketCurrencySymbol st.currency = JsPropValue.undef) :
    updateCurrencySymbol st = st := by
  unfold updateCurrencySymbol
  rcases h with h | h
  · rw [if_pos h]
  · by_cases hc : st.currency = ""
    · rw [if_pos hc]
    · rw [if_neg hc, h]
      simp [JsPropValue.truthy]

/-- Witness for the amended C9 at a concrete state with a currency that is
neither mapped nor an `Object.prototype` member name, and an empty symbol
field. -/
theorem updateCurrencySymbol_undefined_frame_witness :
    ("XYZ" = "" ∨ bracketCurrencySymbol "XYZ" = JsPropValue.undef) ∧
    updateCurrencySymbol ⟨"XYZ", "", false⟩ = ⟨"XYZ", "", false⟩ :=
  ⟨by decide, updateCurrencySymbol_undefined_frame ⟨"XYZ", "", false⟩ (by decide)⟩

/-- C10: at page load the auto-populate only fires when the trimmed symbol
is empty or exactly `"$"` — a pre-existing `"₦"` survives the load-time
check — while a later change event (`updateCurrencySymbol`) replaces it
with the mapped symbol. -/
theorem currencyPageLoad_skips_naira (st : CurrencyState) (sym : String)
    (hnaira : jsTrim st.symbol = "₦")
    (hsym : lookupCurrencySymbol st.currency = some sym) :
    currencyPageLoad st = st ∧ (updateCurrencySymbol st).symbol = sym := by
  have hc : st.currency ≠ "" := lookupCurrencySymbol_ne_empty hsym
  have hs : sym ≠ "" := lookupCurrencySymbol_val_ne_empty hsym
  have hnot : ¬ (jsTrim st.symbol = "" ∨ jsTrim st.symbol = "$") := by
    rw [hnaira]
    rintro (h | h) <;> exact absurd h (by decide)
  have hdef : jsTrim st.symbol = "" ∨ jsTrim st.symbol = "$" ∨ jsTrim st.symbol = "₦" :=
    Or.inr (Or.inr hnaira)
  have hbr := bracketCurrencySymbol_of_lookup hsym
  constructor
  · simp only [currencyPageLoad, if_neg hc, if_neg hnot]
  · simp only [updateCurrencySymbol, hbr, if_neg hc, truthy_str_of_ne hs, if_true,
      if_pos hdef, coerceAssignedSymbol]

/-- Witness for C10: a `"₦"` placeholder with `USD` selected survives page
load; a change event would write `"$"`. -/
theorem currencyPageLoad_skips_naira_witness :
    jsTrim " ₦ " = "₦" ∧ lookupCurrencySymbol "USD" = some "$" ∧
    currencyPageLoad ⟨"USD", " ₦ ", false⟩ = ⟨"USD", " ₦ ", false⟩ ∧
    (updateCurrencySymbol ⟨"USD", " ₦ ", false⟩).symbol = "$" := by
  have h := currencyPageLoad_skips_naira ⟨"USD", " ₦ ", false⟩ "$" (by decide) (by decide)
  exact ⟨by decide, by decide, h.1, h.2⟩

theorem objInsert_fresh {α : Type} (m : List (String × α)) (k : String) (v : α)
    (h : ∀ p ∈ m, p.1 ≠ k) : objInsert m k v = m ++ [(k, v)] := by
  induction m with
  | nil => rfl
  | cons p rest ih =>
    have hp : p.1 ≠ k := h p (List.mem_cons_self ..)
    simp only [objInsert, if_neg hp, List.cons_append, List.cons.injEq, true_and]
    exact ih (fun q hq => h q (List.mem_cons_of_mem p hq))

theorem find?_objInsert_self {α : Type} (m : List (String × α)) (k : String) (v : α) :
    (objInsert m k v).find? (fun p => p.1 = k) = some (k, v) := by
  induction m with
  | nil => simp [objInsert, List.find?]
  | cons p rest ih =>
    by_cases hp : p.1 = k
    · simp [objInsert, hp, List.find?]
    · simp only [objInsert, if_neg hp]
      rw [List.find?_cons_of_neg _ (by simpa using hp)]
      exact ih

theorem getItem_removeItem (st : Storage) (k : String) :
    (st.removeItem k).getItem k = none := by
  simp only [Storage.removeItem, Storage.getItem]
  induction st.items with
  | nil => rfl
  | cons p rest ih =>
    by_cases hp : p.1 = k
    · simp [List.filter_cons, hp, ih]
    · simp only [List.filter_cons, if_pos (show (decide ¬ p.1 = k) = true by simp [hp])]
      rw [List.find?_cons_of_neg _ (by simpa using hp)]
      exact ih

theorem applyDraftEntry_keeps_nonempty (name val : String) :
    ∀ (fields : List FormField) (i : Nat) (fld : FormField),
      fields[i]? = some fld → fld.value ≠ "" →
      (applyDraftEntry name val fields)[i]? = some fld := by
  intro fields
  induction fields with
  | nil => intro i fld h _; simp at h
  | cons f rest ih =>
    intro i fld h hv
    by_cases hn : f.name = name
    · by_cases he : f.value = ""
      · simp only [applyDraftEntry, if_pos hn, if_pos he]
        cases i with
        | zero =>
          simp only [List.getElem?_cons_zero, Option.some.injEq] at h
          rw [← h] at hv
          exact absurd he hv
        | succ i2 =>
          simpa only [List.getElem?_cons_succ] using h
      · simp only [applyDraftEntry, if_pos hn, if_neg he]
        exact h
    · simp only [applyDraftEntry, if_neg hn]
      cases i with
      | zero => simpa only [List.getElem?_cons_zero] using h
      | succ i2 =>
        simp only [List.getElem?_cons_succ] at h ⊢
        exact ih i2 fld h hv

theorem applyDraft_keeps_nonempty (entries : List (String × String)) :
    ∀ (fields : List FormField) (i : Nat) (fld : FormField),
      fields[i]? = some fld → fld.value ≠ "" →
      (applyDraft entries fields)[i]? = some fld := by
  induction entries with
  | nil => intro fields i fld h _; simpa [applyDraft] using h
  | cons e rest ih =>
    intro fields i fld h hv
    have h1 := applyDraftEntry_keeps_nonempty e.1 e.2 fields i fld h hv
    have h2 := ih (applyDraftEntry e.1 e.2 fields) i fld h1 hv
    simpa [applyDraft] using h2

/-- C3: the Draft Persistence Manager initialization does not run on page
load — `initAutoSave` is not among the functions the `DOMContentLoaded`
handler invokes, so no form is scanned, no change/submit listener is
attached, and no stored draft is read. -/
theorem initAutoSave_not_invoked_on_page_load :
    AdminInit.autoSave ∉ domContentLoadedInits := by decide

/-- C2 counterexample: at a concrete form and a concrete unavailable
store, the change handler returns the storage error to its caller — the
write does not fail silently. -/
theorem saveDraft_quota_throw_counterexample :
    saveDraftOnChange [⟨"name", "Alice", false⟩] "admin-form" ⟨false, []⟩ =
      Except.error StorageError.quotaExceeded := rfl

/-- C2 amended: when the write to the persistent store fails, the change
handler installed by `initAutoSave` propagates the storage error uncaught
to its caller; the write is attempted once and not retried. -/
theorem saveDraft_write_failure_propagates (inputs : List FormField) (formId : String)
    (st : Storage) (hfail : st.avail = false) :
    saveDraftOnChange inputs formId st = Except.error StorageError.quotaExceeded := by
  simp [saveDraftOnChange, Storage.setItem, hfail]

/-- Witness for the amended C2 at a concrete failing store. -/
theorem saveDraft_write_failure_propagates_witness :
    (Storage.avail ⟨false, []⟩ = false) ∧
    saveDraftOnChange [⟨"bio", "x", false⟩] "profile-form" ⟨false, []⟩ =
      Except.error StorageError.quotaExceeded :=
  ⟨rfl, saveDraft_write_failure_propagates [⟨"bio", "x", false⟩] "profile-form"
    ⟨false, []⟩ rfl⟩

/-- C4: a field whose value is non-empty when the draft-restore step runs
is left exactly as it was — a draft entry is only ever written into a
currently empty field. -/
theorem restore_only_if_empty (st : Storage) (form form2 : Form)
    (hres : restoreDraft st form = Except.ok form2) (i : Nat) (fld : FormField)
    (hi : form.fields[i]? = some fld) (hv : fld.value ≠ "") :
    form2.fields[i]? = some fld := by
  unfold restoreDraft at hres
  split at hres
  · cases hres
    exact hi
  · split at hres
    · cases hres
      exact hi
    · split at hres
      · cases hres
      · split at hres
        · cases hres
        · cases hres
          exact applyDraft_keeps_nonempty _ form.fields i fld hi hv

/-- Witness for C4: restoring the stored draft fills the empty `bio` field
but leaves the non-empty `name` field byte-for-byte unchanged. -/
theorem restore_only_if_empty_witness :
    restoreDraft ⟨true, [("autosave-profile-form", "\x7b\"name\":\"Bob\",\"bio\":\"hi\"\x7d")]⟩
        ⟨some "profile-form", [⟨"name", "Alice", false⟩, ⟨"bio", "", false⟩]⟩ =
      Except.ok ⟨some "profile-form", [⟨"name", "Alice", false⟩, ⟨"bio", "hi", true⟩]⟩ ∧
    (( ⟨some "profile-form", [⟨"name", "Alice", false⟩, ⟨"bio", "hi", true⟩]⟩ : Form)).fields[0]? =
      some ⟨"name", "Alice", false⟩ := by
  refine ⟨rfl, ?_⟩
  exact restore_only_if_empty
    ⟨true, [("autosave-profile-form", "\x7b\"name\":\"Bob\",\"bio\":\"hi\"\x7d")]⟩
    ⟨some "profile-form", [⟨"name", "Alice", false⟩, ⟨"bio", "", false⟩]⟩
    ⟨some "profile-form", [⟨"name", "Alice", false⟩, ⟨"bio", "hi", true⟩]⟩
    rfl 0 ⟨"name", "Alice", false⟩ rfl (by decide)

/-- C6: firing the submit handler deletes the stored Draft Record for the
form's key, and a subsequent restore for the same form finds nothing and
changes nothing. -/
theorem submit_clears_draft (st : Storage) (form : Form) :
    (clearDraftOnSubmit st (formKeyId form)).getItem (autosaveKey (formKeyId form)) = none ∧
    restoreDraft (clearDraftOnSubmit st (formKeyId form)) form = Except.ok form := by
  have hget := getItem_removeItem st (autosaveKey (formKeyId form))
  refine ⟨hget, ?_⟩
  unfold restoreDraft
  rw [show (clearDraftOnSubmit st (formKeyId form)).getItem (autosaveKey (formKeyId form)) =
    none from hget]

theorem formData_foldl (inputs : List FormField) :
    ∀ acc : List (String × String),
      ((namedFieldPairs inputs).map Prod.fst).Nodup →
      (∀ k ∈ acc.map Prod.fst, k ∉ (namedFieldPairs inputs).map Prod.fst) →
      inputs.foldl (fun a f => if f.name = "" then a else objInsert a f.name f.value) acc
        = acc ++ namedFieldPairs inputs := by
  induction inputs with
  | nil => intro acc _ _; simp [namedFieldPairs]
  | cons f rest ih =>
    intro acc hnd hdisj
    by_cases hn : f.name = ""
    · have heq : namedFieldPairs (f :: rest) = namedFieldPairs rest := by
        simp [namedFieldPairs, List.filter_cons, hn]
      rw [heq] at hnd hdisj
      simp only [List.foldl_cons, if_pos hn]
      rw [heq]
      exact ih acc hnd hdisj
    · have heq : namedFieldPairs (f :: rest) = (f.name, f.value) :: namedFieldPairs rest := by
        simp [namedFieldPairs, List.filter_cons, hn]
      rw [heq] at hnd hdisj
      simp only [List.map_cons, List.nodup_cons] at hnd
      simp only [List.foldl_cons, if_neg hn]
      have hfresh : ∀ p ∈ acc, p.1 ≠ f.name := by
        intro p hp hcontra
        have hmap : p.1 ∈ acc.map Prod.fst := List.mem_map_of_mem _ hp
        have h2 := hdisj p.1 hmap
        simp only [List.map_cons] at h2
        exact h2 (by rw [hcontra]; exact List.mem_cons_self ..)
      rw [objInsert_fresh acc f.name f.value hfresh]
      have hdisj2 : ∀ k ∈ (acc ++ [(f.name, f.value)]).map Prod.fst,
          k ∉ (namedFieldPairs rest).map Prod.fst := by
        intro k hk
        simp only [List.map_append, List.mem_append] at hk
        rcases hk with hk | hk
        · intro hmem
          have h2 := hdisj k hk
          simp only [List.map_cons] at h2
          exact h2 (List.mem_cons_of_mem _ hmem)
        · simp only [List.map_cons, List.map_nil, List.mem_singleton] at hk
          rw [hk]
          exact hnd.1
      rw [heq, ih (acc ++ [(f.name, f.value)]) hnd.2 hdisj2]
      simp

theorem formDataOf_eq_namedFieldPairs (inputs : List FormField)
    (hnd : ((namedFieldPairs inputs).map Prod.fst).Nodup) :
    formDataOf inputs = namedFieldPairs inputs := by
  have h := formData_foldl inputs [] hnd (by simp)
  simpa [formDataOf] using h

/-- C5: on a change event with the store available and the form's named
fields carrying distinct names (the spec's data-model assumption), the
write succeeds and the record stored under the form's key is exactly the
encoding of one entry per named field with its current value — whatever
was stored there before. -/
theorem change_snapshot_complete (inputs : List FormField) (formId : String) (st : Storage)
    (hav : st.avail = true)
    (hnd : ((namedFieldPairs inputs).map Prod.fst).Nodup) :
    ∃ st2, saveDraftOnChange inputs formId st = Except.ok st2 ∧
      st2.getItem (autosaveKey formId) = some (encodeRecord (namedFieldPairs inputs)) := by
  refine ⟨{ avail := st.avail,
            items := objInsert st.items (autosaveKey formId)
              (encodeRecord (formDataOf inputs)) }, ?_, ?_⟩
  · simp [saveDraftOnChange, Storage.setItem, hav]
  · simp only [Storage.getItem]
    rw [find?_objInsert_self, formDataOf_eq_namedFieldPairs inputs hnd]
    rfl

/-- Witness for C5 at a concrete form and a store that already holds an
older record under the same key. -/
theorem change_snapshot_complete_witness :
    (Storage.avail ⟨true, [("autosave-profile-form", "old")]⟩ = true) ∧
    (((namedFieldPairs [⟨"name", "Alice", false⟩, ⟨"bio", "", false⟩]).map Prod.fst).Nodup) ∧
    ∃ st2, saveDraftOnChange [⟨"name", "Alice", false⟩, ⟨"bio", "", false⟩] "profile-form"
        ⟨true, [("autosave-profile-form", "old")]⟩ = Except.ok st2 ∧
      st2.getItem (autosaveKey "profile-form") =
        some (encodeRecord (namedFieldPairs [⟨"name", "Alice", false⟩, ⟨"bio", "", false⟩])) :=
  ⟨rfl, by decide, change_snapshot_complete _ "profile-form" _ rfl (by decide)⟩

theorem jsonHexVal_hexDigitChar (n : Nat) (h : n < 16) :
    jsonHexVal (hexDigitChar n) = some n := by
  interval_cases n <;> decide

theorem parseJsonStringRest_escape (c : Char) (acc rest : List Char) :
    parseJsonStringRest acc (escapeJsonChar c ++ rest)
      = parseJsonStringRest (c :: acc) rest := by
  by_cases h1 : c = '"'
  · subst h1; rfl
  by_cases h2 : c = '\\'
  · subst h2; rfl
  by_cases h3 : c = '\x08'
  · subst h3; rfl
  by_cases h4 : c = '\x0c'
  · subst h4; rfl
  by_cases h5 : c = '\n'
  · subst h5; rfl
  by_cases h6 : c = '\r'
  · subst h6; rfl
  by_cases h7 : c = '\t'
  · subst h7; rfl
  by_cases h8 : c.toNat < 32
  · have hesc : escapeJsonChar c =
        ['\\', 'u', '0', '0', hexDigitChar (c.toNat / 16), hexDigitChar (c.toNat % 16)] := by
      simp [escapeJsonChar, h1, h2, h3, h4, h5, h6, h7, h8]
    rw [hesc]
    simp only [List.cons_append, List.nil_append]
    rw [parseJsonStringRest.eq_def]
    simp only [jsonHexVal_hexDigitChar _ (show c.toNat / 16 < 16 by omega),
               jsonHexVal_hexDigitChar _ (show c.toNat % 16 < 16 by omega)]
    simp only [jsonHexVal]
    simp
    rw [show c.toNat / 16 * 16 + c.toNat % 16 = c.toNat from by omega]
    rw [if_pos (Or.inl (show c.toNat < 55296 by omega)), Char.ofNat_toNat]
  · have hesc : escapeJsonChar c = [c] := by
      simp [escapeJsonChar, h1, h2, h3, h4, h5, h6, h7, h8]
    rw [hesc, List.cons_append, List.nil_append, parseJsonStringRest.eq_def]
    simp [h1, h2, h8]

theorem parseJsonStringRest_flatMap (cs : List Char) : ∀ (acc rest : List Char),
    parseJsonStringRest acc (cs.flatMap escapeJsonChar ++ '"' :: rest)
      = some (String.mk (acc.reverse ++ cs), rest) := by
  induction cs with
  | nil =>
    intro acc rest
    rw [List.flatMap_nil, List.nil_append, parseJsonStringRest.eq_def]
    simp
  | cons c cs ih =>
    intro acc rest
    rw [List.flatMap_cons, List.append_assoc, parseJsonStringRest_escape, ih]
    simp


theorem stringMkData (s : String) : String.mk s.data = s := rfl

theorem jsonSkipWs_cons_not_ws (c : Char) (l : List Char) (h : isJsonWs c = false) :
    jsonSkipWs (c :: l) = c :: l := by
  simp [jsonSkipWs, List.dropWhile_cons, h]

theorem parseJsonValue_quoted (fuel : Nat) (s : String) (rest : List Char) :
    parseJsonValue (fuel + 1) ('"' :: (s.data.flatMap escapeJsonChar ++ '"' :: rest))
      = some (Json.str s, rest) := by
  rw [parseJsonValue.eq_def]
  simp only [jsonSkipWs_cons_not_ws '"' _ (by decide)]
  simp [parseJsonStringRest_flatMap, stringMkData]


theorem jsonSkipWs_encodeMembers_cons (kv2 : String × String)
    (r2 : List (String × String)) (x : List Char) :
    jsonSkipWs (encodeMembers (kv2 :: r2) ++ x) = encodeMembers (kv2 :: r2) ++ x := by
  obtain ⟨k2, v2⟩ := kv2
  cases r2 with
  | nil =>
    simp only [encodeMembers, quoteJsonString, List.cons_append]
    exact jsonSkipWs_cons_not_ws '"' _ (by decide)
  | cons kv3 r3 =>
    simp only [encodeMembers, quoteJsonString, List.cons_append]
    exact jsonSkipWs_cons_not_ws '"' _ (by decide)

theorem parseObjMembers_encodeMembers (r : List (String × String)) :
    ∀ (m : Nat) (acc : List (String × Json)) (rest : List Char),
      r ≠ [] → r.length + 1 ≤ m →
      parseObjMembers m acc (encodeMembers r ++ '\x7d' :: rest)
        = some (r.foldl (fun a p => objInsert a p.1 (Json.str p.2)) acc, rest) := by
  induction r with
  | nil => intro m acc rest hne _; exact absurd rfl hne
  | cons kv r ih =>
    intro m acc rest _ hm
    obtain ⟨k, v⟩ := kv
    simp only [List.length_cons] at hm
    obtain ⟨m1, rfl⟩ : ∃ m1, m = m1 + 1 := ⟨m - 1, by omega⟩
    obtain ⟨m2, hm2⟩ : ∃ m2, m1 = m2 + 1 := ⟨m1 - 1, by omega⟩
    cases r with
    | nil =>
      have harg : encodeMembers [(k, v)] ++ '\x7d' :: rest
          = '"' :: (k.data.flatMap escapeJsonChar ++ '"' ::
              (':' :: ('"' :: (v.data.flatMap escapeJsonChar ++ '"' :: ('\x7d' :: rest))))) := by
        simp [encodeMembers, quoteJsonString]
      rw [harg, parseObjMembers.eq_def]
      simp only [parseJsonStringRest_flatMap, List.reverse_nil, List.nil_append, stringMkData]
      rw [jsonSkipWs_cons_not_ws ':' _ (by decide)]
      simp only [hm2, parseJsonValue_quoted]
      rw [jsonSkipWs_cons_not_ws '\x7d' _ (by decide)]
      simp
    | cons kv2 r2 =>
      have harg : encodeMembers ((k, v) :: kv2 :: r2) ++ '\x7d' :: rest
          = '"' :: (k.data.flatMap escapeJsonChar ++ '"' ::
              (':' :: ('"' :: (v.data.flatMap escapeJsonChar ++ '"' ::
                (',' :: (encodeMembers (kv2 :: r2) ++ '\x7d' :: rest)))))) := by
        simp [encodeMembers, quoteJsonString]
      rw [harg, parseObjMembers.eq_def]
      simp only [parseJsonStringRest_flatMap, List.reverse_nil, List.nil_append, stringMkData]
      rw [jsonSkipWs_cons_not_ws ':' _ (by decide)]
      simp only [hm2, parseJsonValue_quoted]
      rw [jsonSkipWs_cons_not_ws ',' _ (by decide)]
      simp only [jsonSkipWs_encodeMembers_cons]
      rw [← hm2]
      rw [ih m1 (objInsert acc k (Json.str v)) rest (by simp)
        (by simp only [List.length_cons] at hm ⊢; omega)]
      simp

theorem two_le_quoteJsonString_length (s : String) : 2 ≤ (quoteJsonString s).length := by
  simp only [quoteJsonString, List.length_cons, List.length_append]
  omega

theorem encodeMembers_length_ge (r : List (String × String)) :
    r.length ≤ (encodeMembers r).length := by
  induction r with
  | nil => simp [encodeMembers]
  | cons kv r ih =>
    obtain ⟨k, v⟩ := kv
    have hq := two_le_quoteJsonString_length k
    cases r with
    | nil =>
      have he : encodeMembers [(k, v)] = quoteJsonString k ++ ':' :: quoteJsonString v := rfl
      rw [he]
      simp only [List.length_append, List.length_cons, List.length_nil]
      omega
    | cons kv2 r2 =>
      have he : encodeMembers ((k, v) :: kv2 :: r2)
          = quoteJsonString k ++ ':' :: (quoteJsonString v ++ ',' :: encodeMembers (kv2 :: r2)) := rfl
      rw [he]
      simp only [List.length_append, List.length_cons, List.length_nil] at ih ⊢
      omega

theorem encodeMembers_cons_head (kv : String × String) (r : List (String × String)) :
    ∃ t, encodeMembers (kv :: r) = '"' :: t := by
  obtain ⟨k, v⟩ := kv
  cases r with
  | nil =>
    exact ⟨(k.data.flatMap escapeJsonChar ++ ['"']) ++ ':' :: quoteJsonString v, rfl⟩
  | cons kv2 r2 =>
    exact ⟨(k.data.flatMap escapeJsonChar ++ ['"']) ++
      ':' :: (quoteJsonString v ++ ',' :: encodeMembers (kv2 :: r2)), rfl⟩

theorem parseJsonValue_obj_step (fuel : Nat) (kv : String × String)
    (r2 : List (String × String)) (x : List Char) :
    parseJsonValue (fuel + 1) ('\x7b' :: (encodeMembers (kv :: r2) ++ '\x7d' :: x))
      = (match parseObjMembers fuel [] (encodeMembers (kv :: r2) ++ '\x7d' :: x) with
         | none => none
         | some (ms, r) => some (Json.obj ms, r)) := by
  obtain ⟨t, ht⟩ := encodeMembers_cons_head kv r2
  rw [ht, List.cons_append, parseJsonValue.eq_def]
  simp [jsonSkipWs_cons_not_ws, isJsonWs]

theorem parseJson_encodeRecord (r : List (String × String)) :
    parseJson (encodeRecord r)
      = some (Json.obj (r.foldl (fun a p => objInsert a p.1 (Json.str p.2)) [])) := by
  cases r with
  | nil => rfl
  | cons kv r2 =>
    have hlen : (encodeRecord (kv :: r2)).length + 1
        = ((encodeMembers (kv :: r2)).length + 2) + 1 := by
      have h0 : (encodeRecord (kv :: r2)).length
          = ('\x7b' :: (encodeMembers (kv :: r2) ++ '\x7d' :: [])).length := rfl
      rw [h0]
      simp only [List.length_cons, List.length_append, List.length_nil]
    have hdata : (encodeRecord (kv :: r2)).data
        = '\x7b' :: (encodeMembers (kv :: r2) ++ '\x7d' :: []) := rfl
    unfold parseJson
    rw [hlen, hdata, parseJsonValue_obj_step]
    rw [parseObjMembers_encodeMembers (kv :: r2) ((encodeMembers (kv :: r2)).length + 2) [] []
      (List.cons_ne_nil kv r2) (by have := encodeMembers_length_ge (kv :: r2); omega)]
    simp [jsonSkipWs]

theorem foldl_objInsert_fresh {α : Type} (pairs : List (String × α)) :
    ∀ acc : List (String × α),
      (pairs.map Prod.fst).Nodup →
      (∀ k ∈ acc.map Prod.fst, k ∉ pairs.map Prod.fst) →
      pairs.foldl (fun a p => objInsert a p.1 p.2) acc = acc ++ pairs := by
  induction pairs with
  | nil => intro acc _ _; simp
  | cons q pairs ih =>
    intro acc hnd hdisj
    obtain ⟨k, v⟩ := q
    simp only [List.map_cons, List.nodup_cons] at hnd hdisj
    simp only [List.foldl_cons]
    have hfresh : ∀ p ∈ acc, p.1 ≠ k := by
      intro p hp hc
      exact hdisj p.1 (List.mem_map_of_mem _ hp) (by rw [hc]; exact List.mem_cons_self ..)
    rw [objInsert_fresh acc k v hfresh]
    rw [ih (acc ++ [(k, v)]) hnd.2 ?_]
    · simp
    · intro k2 hk2
      simp only [List.map_append, List.mem_append, List.map_cons, List.map_nil,
        List.mem_singleton] at hk2
      rcases hk2 with hk2 | hk2
      · intro hmem
        exact hdisj k2 hk2 (List.mem_cons_of_mem _ hmem)
      · rw [hk2]
        exact hnd.1

theorem strMembers_foldl (r : List (String × String)) (hnd : (r.map Prod.fst).Nodup) :
    r.foldl (fun a p => objInsert a p.1 (Json.str p.2)) [] = strMembers r := by
  have h1 : r.foldl (fun a p => objInsert a p.1 (Json.str p.2)) []
      = (strMembers r).foldl (fun a p => objInsert a p.1 p.2) [] := by
    rw [strMembers, List.foldl_map]
  have hnd2 : ((strMembers r).map Prod.fst).Nodup := by
    simpa [strMembers, List.map_map, Function.comp] using hnd
  rw [h1, foldl_objInsert_fresh (strMembers r) [] hnd2 (by simp)]
  simp

theorem recordOfJson_strMembers (r : List (String × String)) :
    recordOfJson (Json.obj (strMembers r)) = Except.ok r := by
  simp only [recordOfJson, strMembers, List.map_map]
  have hfun : ((fun p : String × Json => (p.1, coerceFieldValue p.2)) ∘
      fun p : String × String => (p.1, Json.str p.2)) = id := by
    funext p
    simp [Function.comp, coerceFieldValue, jsDisplay]
  rw [hfun, List.map_id]

/-- C7: for every well-formed encoded record — a string `JSON.stringify`
produces from a draft record (names unique within a form) — decoding and
re-encoding reproduces the string: the name-to-value pairs parsed back are
exactly the pairs serialized, so `encode(decode(x)) = x`. -/
theorem encode_decode_roundtrip (x : String) (r : List (String × String))
    (hnd : (r.map Prod.fst).Nodup) (hx : x = encodeRecord r) :
    ∃ j rec, parseJson x = some j ∧ recordOfJson j = Except.ok rec ∧
      encodeRecord rec = x := by
  subst hx
  refine ⟨Json.obj (strMembers r), r, ?_, recordOfJson_strMembers r, rfl⟩
  rw [parseJson_encodeRecord r, strMembers_foldl r hnd]

/-- Witness for C7 on the spec's concrete record. -/
theorem encode_decode_roundtrip_witness :
    (([("name", "Alice"), ("bio", "")].map Prod.fst).Nodup) ∧
    ∃ j rec, parseJson (encodeRecord [("name", "Alice"), ("bio", "")]) = some j ∧
      recordOfJson j = Except.ok rec ∧
      encodeRecord rec = encodeRecord [("name", "Alice"), ("bio", "")] :=
  ⟨by decide, encode_decode_roundtrip _ [("name", "Alice"), ("bio", "")] (by decide) rfl⟩

/-- C1 counterexample: a stored draft `"garbage"` is not a well-formed
encoded record, and the restore step neither treats it as absent nor
returns silently — the decode failure propagates as an error. -/
theorem restore_malformed_draft_counterexample :
    restoreDraft ⟨true, [("autosave-admin-form", "garbage")]⟩
        ⟨none, [⟨"name", "", false⟩]⟩ = Except.error JsError.syntaxError := rfl

/-- C1 amended: for a stored draft string that `JSON.parse` rejects, the
draft-restore step of `initAutoSave` throws the decode error to its caller
(no field value is applied, but the draft is not treated as absent). -/
theorem restore_malformed_draft_throws (st : Storage) (form : Form) (s : String)
    (hget : st.getItem (autosaveKey (formKeyId form)) = some s)
    (hs : s ≠ "") (hp : parseJson s = none) :
    restoreDraft st form = Except.error JsError.syntaxError := by
  unfold restoreDraft
  rw [hget]
  simp only [if_neg hs, hp]

/-- Witness for the amended C1 at a concrete store and form. -/
theorem restore_malformed_draft_throws_witness :
    ((⟨true, [("autosave-profile-form", "not json")]⟩ : Storage).getItem
        (autosaveKey (formKeyId ⟨some "profile-form", []⟩)) = some "not json") ∧
    ("not json" ≠ "") ∧ (parseJson "not json" = none) ∧
    restoreDraft ⟨true, [("autosave-profile-form", "not json")]⟩ ⟨some "profile-form", []⟩ =
      Except.error JsError.syntaxError := by
  refine ⟨rfl, by decide, rfl, ?_⟩
  exact restore_malformed_draft_throws _ _ "not json" rfl (by decide) rfl
